import Mathlib

/-!
Verification of servo's blob rasterizer
(`components/layout_2020/blob_rasterizer.rs`): the command-buffer codec
(`BlobData`, `BlobDataIterator`), the image registry mutated by
`ServoBlobImageHandler::update`, and the rasterization pipeline
(`ServoBlobRasterizer::rasterize_blob` / `rasterize`).

Modelling conventions:
* Coordinates (the source's `f32` layout units and `i32` device units) are
  modelled by `Int`.  Every operation the source performs on them — `min`,
  `max`, addition, subtraction, comparison — is exact, so the integer model
  is faithful on integral inputs; unit casts (`cast_unit`, `cast`) are
  identities.
* A Rust panic (`unimplemented!`, indexing a `HashMap` with a missing key,
  `Option::unwrap` on `None`, reading past a byte buffer) is modelled by
  `Option`, with `none` as the panicked outcome.
* The byte buffer of `BlobData` stores a `BlobDataHeader` followed by
  fixed-stride entries; `convert_to_bytes`/`convert_from_bytes` are inverse
  on live in-process values, so the buffer is modelled at entry granularity:
  a header count plus the list of entry slots in order.
* The pixel buffer of `tiny_skia::Pixmap` is modelled by its dimensions and
  the ordered list of paint operations applied to it; the pixel contents are
  a deterministic function of those.
* The rayon parallel map (`into_par_iter().map(..).collect()`) is modelled
  by an order-preserving divide-and-conquer traversal over the request list,
  mirroring rayon's split-join execution with its index-preserving collect.
-/

/-- A 2D point (euclid `Point2D`), integer coordinates. -/
structure Point2 where
  x : Int
  y : Int
deriving DecidableEq, Repr

/-- A 2D box (euclid `Box2D`): `min` and `max` corners. -/
structure Box2 where
  min : Point2
  max : Point2
deriving DecidableEq, Repr

/-- euclid `Box2D::width`. -/
def Box2.width (b : Box2) : Int := b.max.x - b.min.x

/-- euclid `Box2D::height`. -/
def Box2.height (b : Box2) : Int := b.max.y - b.min.y

/-- euclid `Box2D::size`: `max - min`, componentwise. -/
def Box2.size (b : Box2) : Point2 := ⟨b.width, b.height⟩

/-- euclid `Box2D::is_empty`: `!(max.x > min.x && max.y > min.y)`. -/
def Box2.isEmpty (b : Box2) : Bool :=
  !(decide (b.min.x < b.max.x) && decide (b.min.y < b.max.y))

/-- euclid `Box2D::intersection_unchecked`: componentwise max of mins and
min of maxes, with no emptiness check. -/
def Box2.intersectionUnchecked (a b : Box2) : Box2 :=
  ⟨⟨Max.max a.min.x b.min.x, Max.max a.min.y b.min.y⟩,
   ⟨Min.min a.max.x b.max.x, Min.min a.max.y b.max.y⟩⟩

/-- euclid `Box2D::intersection`: `intersection_unchecked`, or `None` when
the result is empty. -/
def Box2.intersection (a b : Box2) : Option Box2 :=
  let i := a.intersectionUnchecked b
  if i.isEmpty then none else some i

/-- euclid `Box2D::contains_box`: true when `b` is empty, or when `a`
encloses `b` on both axes. -/
def Box2.containsBox (a b : Box2) : Bool :=
  b.isEmpty ||
    (decide (a.min.x ≤ b.min.x) && decide (b.max.x ≤ a.max.x) &&
     decide (a.min.y ≤ b.min.y) && decide (b.max.y ≤ a.max.y))

/-- euclid `Box2D::from_size`: min at the origin, max at `s`. -/
def Box2.fromSize (s : Point2) : Box2 := ⟨⟨0, 0⟩, ⟨s.x, s.y⟩⟩

/-- euclid `Box2D::translate`. -/
def Box2.translate (b : Box2) (v : Point2) : Box2 :=
  ⟨⟨b.min.x + v.x, b.min.y + v.y⟩, ⟨b.max.x + v.x, b.max.y + v.y⟩⟩

/-- euclid `Box2D::zero`. -/
def Box2.zero : Box2 := ⟨⟨0, 0⟩, ⟨0, 0⟩⟩

/-- `i32::MIN`. -/
def i32Min : Int := -(2 ^ 31)

/-- `i32::MAX`. -/
def i32Max : Int := 2 ^ 31 - 1

/-- `BlobImageCommandKind`: `FillRect`, or `DrawPolygon` with its point
list (the `ManuallyDrop` wrapper only suppresses the destructor and does
not change the value). -/
inductive BlobImageCommandKind where
  | FillRect
  | DrawPolygon (points : List Point2)
deriving DecidableEq, Repr

/-- `BlobImageCommand`: a command kind plus its bounding rectangle. -/
structure BlobImageCommand where
  kind : BlobImageCommandKind
  bounds : Box2
deriving DecidableEq, Repr

/-- `BlobData`: the serialized command buffer, modelled at entry
granularity — the `BlobDataHeader`'s `length` field plus the entry slots
stored after the header, in buffer order. -/
structure BlobData where
  header : Nat
  entries : List BlobImageCommand
deriving DecidableEq, Repr

/-- `BlobData::new` (and `new_with_capacity`, which differs only in the
reserved allocation): a buffer holding a default (zero-count) header and
no entries. -/
def BlobData.new : BlobData := ⟨0, []⟩

/-- `BlobData::new_entry`: read the current header, append the entry's
bytes after the existing data, write back the incremented header, and
return the previous count as the entry's index. -/
def BlobData.new_entry (b : BlobData) (c : BlobImageCommand) : BlobData × Nat :=
  (⟨b.header + 1, b.entries ++ [c]⟩, b.header)

/-- The reading loop of `BlobDataIterator::next`, fused: starting at slot
`pos`, read `count` further entries.  Reading a slot that is not backed by
the buffer is the source's out-of-bounds slice / `convert_from_bytes`
assertion failure, i.e. a panic (`none`). -/
def readEntries (entries : List BlobImageCommand) : Nat → Nat → Option (List BlobImageCommand)
  | _, 0 => some []
  | pos, count + 1 =>
    match entries.get? pos with
    | some c => (readEntries entries (pos + 1) count).map (fun rest => c :: rest)
    | none => none

/-- Decoding a buffer: `BlobDataIterator::from_raw` starts at position 0
and `next` yields entries while `current_pos < header.length`, so the
iterator produces exactly the first `header` entry slots. -/
def BlobData.decode (b : BlobData) : Option (List BlobImageCommand) :=
  readEntries b.entries 0 b.header

/-- Encoding a command list: a fresh `BlobData::new` buffer with each
command appended in order through `new_entry` (this is how both the
producing layer and `update` build buffers). -/
def encode (cmds : List BlobImageCommand) : BlobData :=
  cmds.foldl (fun b c => (b.new_entry c).1) BlobData.new

/-- The buffers reachable from `BlobData::new` by `new_entry` appends. -/
inductive BlobData.Reachable : BlobData → Prop where
  | new : BlobData.Reachable BlobData.new
  | append (b : BlobData) (c : BlobImageCommand) :
      BlobData.Reachable b → BlobData.Reachable (b.new_entry c).1

/-- webrender `DirtyRect`: the whole image, or a sub-rectangle. -/
inductive DirtyRect where
  | All
  | Partial (rect : Box2)
deriving DecidableEq, Repr

/-- `BlobCommand`: one registry entry — the stored command buffer, the
visible rectangle, and the tiling hint. -/
structure BlobCommand where
  data : BlobData
  visible_rect : Box2
  tile_size : Nat
deriving DecidableEq, Repr

/-- The registry map `HashMap<BlobImageKey, BlobCommand>`, keyed by the
opaque image key (modelled by `Nat`). -/
def Registry := Nat → Option BlobCommand

/-- The dirty-rect conversion at the head of `update`: `DirtyRect::All`
becomes the box from `(i32::MIN, i32::MIN)` to `(i32::MAX, i32::MAX)`;
`DirtyRect::Partial(d)` is `d` (after the identity `cast_unit`). -/
def dirtyBox : DirtyRect → Box2
  | .All => ⟨⟨i32Min, i32Min⟩, ⟨i32Max, i32Max⟩⟩
  | .Partial d => d

/-- `ServoBlobImageHandler::update`: when `key` is absent the registry is
untouched; otherwise the new buffer is decoded, each of its commands is
re-appended to a fresh buffer iff the dirty box contains
`old_visible_rect ∩ new_visible_rect`, and the entry's buffer and visible
rect are replaced.  `none` models the panic of iterating a malformed
buffer. -/
def ServoBlobImageHandler.update (reg : Registry) (key : Nat) (data : BlobData)
    (visible_rect : Box2) (dirty_rect : DirtyRect) : Option Registry :=
  match reg key with
  | none => some reg
  | some command =>
    match data.decode with
    | none => none
    | some cmds =>
      let dr := dirtyBox dirty_rect
      let preserved := command.visible_rect.intersectionUnchecked visible_rect
      let newData := cmds.foldl
        (fun b c => if dr.containsBox preserved then (b.new_entry c).1 else b)
        BlobData.new
      some (fun k =>
        if k = key then
          some { command with data := newData, visible_rect := visible_rect }
        else reg k)

/-- webrender `ImageFormat` (the variants relevant here; the source only
accepts `RGBA8`). -/
inductive ImageFormat where
  | RGBA8
  | BGRA8
  | R8
deriving DecidableEq, Repr

/-- The request descriptor: target device rectangle and pixel format. -/
structure BlobImageDescriptor where
  rect : Box2
  format : ImageFormat
deriving DecidableEq, Repr

/-- webrender `BlobImageRequest`: the image key plus the tile offset, the
identity tag carried into each result. -/
structure BlobImageRequest where
  key : Nat
  tile : Point2
deriving DecidableEq, Repr

/-- webrender `BlobImageParams`: one rasterization request. -/
structure BlobImageParams where
  request : BlobImageRequest
  descriptor : BlobImageDescriptor
  dirty_rect : DirtyRect
deriving DecidableEq, Repr

/-- One paint operation applied to a pixmap. -/
inductive PaintOp where
  | fillRect (rect : Box2)
  | fillPath (points : List Point2)
deriving DecidableEq, Repr

/-- `tiny_skia::Pixmap`, modelled by its dimensions and the ordered list
of paint operations applied to it. -/
structure Pixmap where
  width : Nat
  height : Nat
  ops : List PaintOp
deriving DecidableEq, Repr

/-- The `as u32` cast of an `i32` value: two's-complement wrap. -/
def intAsU32 (x : Int) : Nat := (x % (2 ^ 32)).toNat

/-- `tiny_skia::Pixmap::new`: `None` when either dimension is zero
(`IntSize::from_wh` rejects zero), otherwise a zeroed pixmap. -/
def Pixmap.new (w h : Nat) : Option Pixmap :=
  if w = 0 || h = 0 then none else some ⟨w, h, []⟩

/-- `ServoBlobRasterizer::to_tiny_skia_rect`:
`Rect::from_xywh(min.x, min.y, width, height)`, which is `Some` exactly
when both extents are non-negative (exact arithmetic; the source unwraps
the result, so `none` is a panic). -/
def toTinySkiaRect (b : Box2) : Option Box2 :=
  if 0 ≤ b.width ∧ 0 ≤ b.height then some b else none

/-- Boundary model of tiny-skia path building as `process_blob` drives it:
`move_to` the first point, `line_to` the rest, `close`, then `finish`.
`PathBuilder::finish` returns `None` for an empty builder, so a polygon
with zero points yields `none`; the source unwraps it. -/
def pathBuilderFinish (points : List Point2) : Option (List Point2) :=
  match points with
  | [] => none
  | _ :: _ => some points

/-- `ServoBlobRasterizer::process_blob`: `FillRect` fills the command's
bounds (panicking if `to_tiny_skia_rect` fails); `DrawPolygon` builds a
closed path from the points and fills it (panicking, via `unwrap`, if
`finish` returns `None`). -/
def processBlob (pixmap : Pixmap) (command : BlobImageCommand) : Option Pixmap :=
  match command.kind with
  | .FillRect =>
    match toTinySkiaRect command.bounds with
    | none => none
    | some r => some { pixmap with ops := pixmap.ops ++ [.fillRect r] }
  | .DrawPolygon coordinates =>
    match pathBuilderFinish coordinates with
    | none => none
    | some path => some { pixmap with ops := pixmap.ops ++ [.fillPath path] }

/-- The dirty-rect view taken inside `rasterize_blob`:
`Partial` is kept, `All` becomes `None`. -/
def dirtyOf : DirtyRect → Option Box2
  | .Partial r => some r
  | .All => none

/-- The per-command bounds rewrite in `rasterize_blob`'s loop: intersect
with the dirty rectangle when one is present, then
`LayoutRect::from_size(bounds.size())` — a rectangle of the same extents
with its min corner at the origin. -/
def transformBounds (dirty : Option Box2) (bounds : Box2) : Box2 :=
  let b :=
    match dirty with
    | some d => bounds.intersectionUnchecked d
    | none => bounds
  Box2.fromSize b.size

/-- The paint operation a command contributes when its processing
succeeds, after the bounds rewrite. -/
def paintOpOf (dirty : Option Box2) (c : BlobImageCommand) : PaintOp :=
  match c.kind with
  | .FillRect => .fillRect (transformBounds dirty c.bounds)
  | .DrawPolygon pts => .fillPath pts

/-- The command loop of `rasterize_blob`: rewrite each command's bounds
and paint it, in sequence order; a panic anywhere aborts. -/
def paintAll (dirty : Option Box2) : Pixmap → List BlobImageCommand → Option Pixmap
  | pm, [] => some pm
  | pm, c :: rest =>
    match processBlob pm { c with bounds := transformBounds dirty c.bounds } with
    | none => none
    | some p => paintAll dirty p rest

/-- webrender `DirtyRect::to_subrect_of`: the whole rect for `All`, the
intersection (or the zero box when it is empty) for `Partial`. -/
def DirtyRect.toSubrectOf (d : DirtyRect) (rect : Box2) : Box2 :=
  match d with
  | .All => rect
  | .Partial p =>
    match p.intersection rect with
    | some i => i
    | none => Box2.zero

/-- webrender `RasterizedBlobImage`: the covered rectangle plus the pixel
buffer. -/
structure RasterizedBlobImage where
  rasterized_rect : Box2
  data : Pixmap
deriving DecidableEq, Repr

/-- `ServoBlobRasterizer::rasterize_blob` over a registry snapshot.
`none` models a panic: `unimplemented!` on any format other than `RGBA8`,
`Pixmap::new(..).unwrap()` on a zero-sized target, the direct
`HashMap` index on a missing key, a malformed buffer, or a paint panic. -/
def ServoBlobRasterizer.rasterizeBlob (reg : Registry) (request : BlobImageParams) :
    Option (BlobImageRequest × RasterizedBlobImage) :=
  match request.descriptor.format with
  | .RGBA8 =>
    let rect := request.descriptor.rect
    match Pixmap.new (intAsU32 rect.width) (intAsU32 rect.height) with
    | none => none
    | some pixmap =>
      match reg request.request.key with
      | none => none
      | some command =>
        match command.data.decode with
        | none => none
        | some cmds =>
          match paintAll (dirtyOf request.dirty_rect) pixmap cmds with
          | none => none
          | some painted =>
            let dirty_rect := request.dirty_rect.toSubrectOf rect
            let rasterized_rect := dirty_rect.translate ⟨-rect.min.x, -rect.min.y⟩
            some (request.request, ⟨rasterized_rect, painted⟩)
  | _ => none

/-- The sequential path of `rasterize`: `requests.into_iter().map(..)
.collect()`, stopping at the first panic. -/
def seqTraverse {α β : Type} (f : α → Option β) : List α → Option (List β)
  | [] => some []
  | a :: rest =>
    match f a with
    | none => none
    | some b => (seqTraverse f rest).map (fun bs => b :: bs)

/-- The parallel path of `rasterize`: rayon's
`into_par_iter().map(..).collect()` modelled as its divide-and-conquer
split-join — halve the list, traverse both halves, join in index order
(rayon's collect on an indexed parallel iterator preserves input order);
a panic in either half aborts the batch. -/
def parTraverse {α β : Type} (f : α → Option β) (l : List α) : Option (List β) :=
  if _h : l.length ≤ 1 then
    match l with
    | [] => some []
    | a :: _ => (f a).map (fun b => [b])
  else
    match parTraverse f (l.take (l.length / 2)), parTraverse f (l.drop (l.length / 2)) with
    | some xs, some ys => some (xs ++ ys)
    | _, _ => none
termination_by l.length
decreasing_by
  · simp only [List.length_take]
    omega
  · simp only [List.length_drop]
    omega

/-- `ServoBlobRasterizer::rasterize`: the parallel map over the worker
pool when multithreading is enabled, the sequential map otherwise. -/
def ServoBlobRasterizer.rasterize (reg : Registry) (enable_multithreading : Bool)
    (requests : List BlobImageParams) :
    Option (List (BlobImageRequest × RasterizedBlobImage)) :=
  if enable_multithreading then
    parTraverse (ServoBlobRasterizer.rasterizeBlob reg) requests
  else
    seqTraverse (ServoBlobRasterizer.rasterizeBlob reg) requests

/-- The spec's per-command bounds transform, stated from the spec's words
for comparison with the code's `transformBounds`: intersect with the dirty
sub-rectangle when one is given, then translate into the coordinate frame
whose origin is the request's target rectangle origin. -/
def specLocalBounds (dirty : Option Box2) (rectOrigin : Point2) (bounds : Box2) : Box2 :=
  let b :=
    match dirty with
    | some d => bounds.intersectionUnchecked d
    | none => bounds
  b.translate ⟨-rectOrigin.x, -rectOrigin.y⟩

/-! ## Codec lemmas -/

theorem readEntries_eq (entries : List BlobImageCommand) :
    ∀ (count pos : Nat), pos + count ≤ entries.length →
      readEntries entries pos count = some ((entries.drop pos).take count) := by
  intro count
  induction count with
  | zero => intro pos _; simp [readEntries]
  | succ n ih =>
    intro pos hle
    have hpos : pos < entries.length := by omega
    have hget : entries.get? pos = some entries[pos] := by
      rw [List.get?_eq_getElem?, List.getElem?_eq_getElem hpos]
    have hrec := ih (pos + 1) (by omega)
    rw [readEntries, hget, hrec, List.drop_eq_getElem_cons hpos, List.take_succ_cons]
    rfl

theorem decode_of_le (b : BlobData) (h : b.header ≤ b.entries.length) :
    b.decode = some (b.entries.take b.header) := by
  have := readEntries_eq b.entries b.header 0 (by omega)
  simpa [BlobData.decode] using this

theorem decode_wf (b : BlobData) (h : b.header = b.entries.length) :
    b.decode = some b.entries := by
  rw [decode_of_le b (by omega), h, List.take_length]

theorem encode_foldl (cmds : List BlobImageCommand) :
    ∀ b : BlobData,
      cmds.foldl (fun b c => (b.new_entry c).1) b
        = ⟨b.header + cmds.length, b.entries ++ cmds⟩ := by
  induction cmds with
  | nil => intro b; simp
  | cons c rest ih =>
    intro b
    rw [List.foldl_cons, ih]
    simp [BlobData.new_entry]
    omega

theorem encode_eq (cmds : List BlobImageCommand) : encode cmds = ⟨cmds.length, cmds⟩ := by
  have := encode_foldl cmds BlobData.new
  simpa [encode, BlobData.new] using this

theorem decode_encode (cmds : List BlobImageCommand) : (encode cmds).decode = some cmds := by
  rw [encode_eq]
  exact decode_wf ⟨cmds.length, cmds⟩ rfl

/-! ## Traversal lemmas: the parallel split-join map agrees with the
sequential map -/

theorem seqTraverse_append {α β : Type} (f : α → Option β) (l₁ l₂ : List α) :
    seqTraverse f (l₁ ++ l₂)
      = (seqTraverse f l₁).bind (fun xs => (seqTraverse f l₂).map (fun ys => xs ++ ys)) := by
  induction l₁ with
  | nil =>
    simp only [List.nil_append, seqTraverse, Option.bind_eq_bind, Option.some_bind]
    cases seqTraverse f l₂ <;> simp
  | cons a rest ih =>
    cases ha : f a with
    | none => simp [seqTraverse, ha]
    | some b =>
      simp only [List.cons_append, seqTraverse, ha, List.append_eq]
      rw [ih]
      cases hr : seqTraverse f rest with
      | none => simp
      | some xs =>
        cases hl : seqTraverse f l₂ with
        | none => simp
        | some ys => simp

theorem seqTraverse_none_of_mem {α β : Type} (f : α → Option β) (l : List α) (a : α)
    (hmem : a ∈ l) (hfa : f a = none) : seqTraverse f l = none := by
  induction l with
  | nil => cases hmem
  | cons b rest ih =>
    rcases List.mem_cons.mp hmem with h | h
    · subst h
      simp [seqTraverse, hfa]
    · cases hb : f b with
      | none => simp [seqTraverse, hb]
      | some v => simp [seqTraverse, hb, ih h]

theorem parTraverse_eq_seqTraverse_aux {α β : Type} (f : α → Option β) :
    ∀ (n : Nat) (l : List α), l.length ≤ n → parTraverse f l = seqTraverse f l := by
  intro n
  induction n with
  | zero =>
    intro l hl
    have : l = [] := List.eq_nil_of_length_eq_zero (by omega)
    subst this
    rw [parTraverse]
    simp [seqTraverse]
  | succ n ih =>
    intro l hl
    rw [parTraverse]
    by_cases h1 : l.length ≤ 1
    · rw [dif_pos h1]
      match l, h1 with
      | [], _ => simp [seqTraverse]
      | [a], _ =>
        cases ha : f a <;> simp [seqTraverse, ha]
    · rw [dif_neg h1]
      have hlen : 2 ≤ l.length := by omega
      have htake : (l.take (l.length / 2)).length ≤ n := by
        simp only [List.length_take]
        omega
      have hdrop : (l.drop (l.length / 2)).length ≤ n := by
        simp only [List.length_drop]
        omega
      rw [ih _ htake, ih _ hdrop]
      have hsplit := seqTraverse_append f (l.take (l.length / 2)) (l.drop (l.length / 2))
      rw [List.take_append_drop] at hsplit
      rw [hsplit]
      cases seqTraverse f (l.take (l.length / 2)) with
      | none => rfl
      | some xs =>
        cases seqTraverse f (l.drop (l.length / 2)) <;> rfl

theorem parTraverse_eq_seqTraverse {α β : Type} (f : α → Option β) (l : List α) :
    parTraverse f l = seqTraverse f l :=
  parTraverse_eq_seqTraverse_aux f l.length l (Nat.le_refl _)

/-! ## Painting lemmas -/

theorem processBlob_paintOp (d : Option Box2) (pm : Pixmap) (c : BlobImageCommand) (p : Pixmap)
    (h : processBlob pm { c with bounds := transformBounds d c.bounds } = some p) :
    p.ops = pm.ops ++ [paintOpOf d c] ∧ p.width = pm.width ∧ p.height = pm.height := by
  unfold processBlob at h
  cases hk : c.kind with
  | FillRect =>
    rw [hk] at h
    simp only at h
    cases hr : toTinySkiaRect (transformBounds d c.bounds) with
    | none => rw [hr] at h; cases h
    | some r =>
      rw [hr] at h
      have hrr : r = transformBounds d c.bounds := by
        unfold toTinySkiaRect at hr
        by_cases hc : 0 ≤ (transformBounds d c.bounds).width ∧ 0 ≤ (transformBounds d c.bounds).height
        · rw [if_pos hc] at hr
          exact (Option.some.inj hr).symm
        · rw [if_neg hc] at hr
          cases hr
      cases h
      refine ⟨?_, rfl, rfl⟩
      simp [paintOpOf, hk, hrr]
  | DrawPolygon pts =>
    rw [hk] at h
    simp only at h
    cases hp : pathBuilderFinish pts with
    | none => rw [hp] at h; cases h
    | some path =>
      rw [hp] at h
      have hpp : path = pts := by
        unfold pathBuilderFinish at hp
        cases pts with
        | nil => cases hp
        | cons q qs => exact (Option.some.inj hp).symm
      cases h
      refine ⟨?_, rfl, rfl⟩
      simp [paintOpOf, hk, hpp]

theorem paintAll_ops (d : Option Box2) (cmds : List BlobImageCommand) :
    ∀ (pm p : Pixmap), paintAll d pm cmds = some p →
      p.ops = pm.ops ++ cmds.map (paintOpOf d) := by
  induction cmds with
  | nil =>
    intro pm p h
    cases h
    simp
  | cons c rest ih =>
    intro pm p h
    unfold paintAll at h
    cases hq : processBlob pm { c with bounds := transformBounds d c.bounds } with
    | none => rw [hq] at h; cases h
    | some q =>
      rw [hq] at h
      have hops := (processBlob_paintOp d pm c q hq).1
      have := ih q p h
      rw [this, hops]
      simp

theorem paintAll_none_of_mem (d : Option Box2) (cmds : List BlobImageCommand)
    (c : BlobImageCommand) (hmem : c ∈ cmds)
    (hfail : ∀ pm, processBlob pm { c with bounds := transformBounds d c.bounds } = none) :
    ∀ pm, paintAll d pm cmds = none := by
  induction cmds with
  | nil => cases hmem
  | cons b rest ih =>
    intro pm
    rcases List.mem_cons.mp hmem with h | h
    · subst h
      unfold paintAll
      rw [hfail pm]
    · unfold paintAll
      cases hq : processBlob pm { b with bounds := transformBounds d b.bounds } with
      | none => rfl
      | some q => exact ih h q

/-! ## Registry update lemmas -/

theorem update_present (reg : Registry) (key : Nat) (data : BlobData) (v : Box2)
    (dr : DirtyRect) (old : BlobCommand) (cmds : List BlobImageCommand)
    (hold : reg key = some old) (hdec : data.decode = some cmds) :
    ServoBlobImageHandler.update reg key data v dr
      = some (fun k =>
          if k = key then
            some { old with
              data :=
                if (dirtyBox dr).containsBox (old.visible_rect.intersectionUnchecked v)
                then encode cmds else BlobData.new,
              visible_rect := v }
          else reg k) := by
  unfold ServoBlobImageHandler.update
  rw [hold, hdec]
  by_cases hc : (dirtyBox dr).containsBox (old.visible_rect.intersectionUnchecked v) = true
  · have hfun :
        (fun (b : BlobData) (c : BlobImageCommand) =>
            if (dirtyBox dr).containsBox (old.visible_rect.intersectionUnchecked v)
            then (b.new_entry c).1 else b)
          = fun (b : BlobData) (c : BlobImageCommand) => (b.new_entry c).1 := by
      funext b c
      rw [if_pos hc]
    simp only [hfun, hc, if_true, encode]
  · have hc' : (dirtyBox dr).containsBox (old.visible_rect.intersectionUnchecked v) = false :=
      Bool.not_eq_true _ ▸ Bool.of_not_eq_true hc
    have hfun :
        (fun (b : BlobData) (c : BlobImageCommand) =>
            if (dirtyBox dr).containsBox (old.visible_rect.intersectionUnchecked v)
            then (b.new_entry c).1 else b)
          = fun (b : BlobData) (_ : BlobImageCommand) => b := by
      funext b c
      rw [if_neg (by rw [hc']; exact Bool.false_ne_true)]
    simp only [hfun, hc', if_false, Bool.false_eq_true, List.foldl_fixed]

/-! ## Rasterizer panic lemmas -/

theorem rasterizeBlob_none_of_missing_key (reg : Registry) (request : BlobImageParams)
    (h : reg request.request.key = none) :
    ServoBlobRasterizer.rasterizeBlob reg request = none := by
  unfold ServoBlobRasterizer.rasterizeBlob
  cases request.descriptor.format with
  | RGBA8 =>
    simp only
    cases Pixmap.new (intAsU32 request.descriptor.rect.width)
        (intAsU32 request.descriptor.rect.height) with
    | none => rfl
    | some pixmap => rw [h]
  | BGRA8 => rfl
  | R8 => rfl

theorem rasterizeBlob_none_of_bad_format (reg : Registry) (request : BlobImageParams)
    (h : request.descriptor.format ≠ .RGBA8) :
    ServoBlobRasterizer.rasterizeBlob reg request = none := by
  unfold ServoBlobRasterizer.rasterizeBlob
  cases hf : request.descriptor.format with
  | RGBA8 => exact absurd hf h
  | BGRA8 => rfl
  | R8 => rfl

theorem processBlob_none_of_empty_polygon (pm : Pixmap) (c : BlobImageCommand)
    (hc : c.kind = .DrawPolygon []) : processBlob pm c = none := by
  unfold processBlob
  rw [hc]
  rfl

theorem rasterizeBlob_none_of_empty_polygon (reg : Registry) (request : BlobImageParams)
    (entry : BlobCommand) (cmds : List BlobImageCommand) (c : BlobImageCommand)
    (hentry : reg request.request.key = some entry)
    (hdec : entry.data.decode = some cmds)
    (hmem : c ∈ cmds) (hc : c.kind = .DrawPolygon []) :
    ServoBlobRasterizer.rasterizeBlob reg request = none := by
  unfold ServoBlobRasterizer.rasterizeBlob
  cases request.descriptor.format with
  | RGBA8 =>
    simp only
    cases Pixmap.new (intAsU32 request.descriptor.rect.width)
        (intAsU32 request.descriptor.rect.height) with
    | none => rfl
    | some pixmap =>
      dsimp only
      rw [hentry]
      dsimp only
      rw [hdec]
      dsimp only
      have hpaint := paintAll_none_of_mem (dirtyOf request.dirty_rect) cmds c hmem
        (fun pm => processBlob_none_of_empty_polygon pm _ hc)
      rw [hpaint pixmap]
  | BGRA8 => rfl
  | R8 => rfl

/-! ## Concrete fixtures for witnesses and counterexamples -/

/-- A fill command whose bounds sit away from the origin. -/
def cmd0 : BlobImageCommand := ⟨.FillRect, ⟨⟨2, 2⟩, ⟨5, 5⟩⟩⟩

/-- A polygon command with zero points. -/
def polyCmd : BlobImageCommand := ⟨.DrawPolygon [], ⟨⟨0, 0⟩, ⟨1, 1⟩⟩⟩

/-- A registry entry holding `cmd0`, visible on `(0,0)-(10,10)`. -/
def entry0 : BlobCommand := ⟨⟨1, [cmd0]⟩, ⟨⟨0, 0⟩, ⟨10, 10⟩⟩, 16⟩

/-- A registry entry holding the empty polygon. -/
def polyEntry : BlobCommand := ⟨⟨1, [polyCmd]⟩, ⟨⟨0, 0⟩, ⟨10, 10⟩⟩, 16⟩

/-- A registry with `entry0` under key 0. -/
def reg0 : Registry := fun k => if k = 0 then some entry0 else none

/-- A registry with `polyEntry` under key 0. -/
def regPoly : Registry := fun k => if k = 0 then some polyEntry else none

/-- A request for key 0, target `(0,0)-(10,10)`, RGBA8, dirty `All`. -/
def req0 : BlobImageParams := ⟨⟨0, ⟨0, 0⟩⟩, ⟨⟨⟨0, 0⟩, ⟨10, 10⟩⟩, .RGBA8⟩, .All⟩

/-- A request for the absent key 1. -/
def reqMissing : BlobImageParams := ⟨⟨1, ⟨0, 0⟩⟩, ⟨⟨⟨0, 0⟩, ⟨10, 10⟩⟩, .RGBA8⟩, .All⟩

/-- A request for key 0 with an unsupported pixel format. -/
def reqBadFmt : BlobImageParams := ⟨⟨0, ⟨0, 0⟩⟩, ⟨⟨⟨0, 0⟩, ⟨10, 10⟩⟩, .BGRA8⟩, .All⟩

/-! ## C1 — update retention rule -/

/-- C1: for `update(id, new_buffer, new_visible_rect, dirty_region)` on a
registered id, with `preserved = old_visible_rect ∩ new_visible_rect`, the
rebuilt stored buffer decodes to all of `new_buffer`'s commands when the
dirty box contains `preserved` and to none otherwise (one test for every
command); the stored visible rect becomes the new one; and when the id is
absent the whole call returns the registry unchanged. -/
theorem update_retention (reg : Registry) (key : Nat) (data : BlobData) (v : Box2)
    (dr : DirtyRect) :
    (∀ (old : BlobCommand) (cmds : List BlobImageCommand),
      reg key = some old → data.decode = some cmds →
        ∃ reg', ServoBlobImageHandler.update reg key data v dr = some reg' ∧
          ∃ e, reg' key = some e ∧ e.visible_rect = v ∧
            e.data.decode
              = some (if (dirtyBox dr).containsBox (old.visible_rect.intersectionUnchecked v)
                      then cmds else [])) ∧
    (reg key = none → ServoBlobImageHandler.update reg key data v dr = some reg) := by
  constructor
  · intro old cmds hold hdec
    refine ⟨_, update_present reg key data v dr old cmds hold hdec,
      { old with
          data :=
            if (dirtyBox dr).containsBox (old.visible_rect.intersectionUnchecked v)
            then encode cmds else BlobData.new,
          visible_rect := v }, ?_, rfl, ?_⟩
    · dsimp only
      rw [if_pos rfl]
    · by_cases hc : (dirtyBox dr).containsBox (old.visible_rect.intersectionUnchecked v) = true
    -- the retention test is loop-invariant, so the buffer is all-or-nothing
      · rw [if_pos hc, if_pos hc]
        exact decode_encode cmds
      · rw [if_neg hc, if_neg hc]
        rfl
  · intro hnone
    unfold ServoBlobImageHandler.update
    rw [hnone]

/-- C1 witness: a concrete update on `reg0` with a dirty rect containing
the preserved region. -/
theorem update_retention_witness :
    ∃ reg', ServoBlobImageHandler.update reg0 0 ⟨2, [cmd0, cmd0]⟩ ⟨⟨0, 0⟩, ⟨4, 4⟩⟩
        (.Partial ⟨⟨0, 0⟩, ⟨4, 4⟩⟩) = some reg' ∧
      ∃ e, reg' 0 = some e ∧ e.visible_rect = ⟨⟨0, 0⟩, ⟨4, 4⟩⟩ ∧
        e.data.decode
          = some (if (dirtyBox (.Partial ⟨⟨0, 0⟩, ⟨4, 4⟩⟩)).containsBox
                      (entry0.visible_rect.intersectionUnchecked ⟨⟨0, 0⟩, ⟨4, 4⟩⟩)
                  then [cmd0, cmd0] else []) :=
  (update_retention reg0 0 ⟨2, [cmd0, cmd0]⟩ ⟨⟨0, 0⟩, ⟨4, 4⟩⟩
    (.Partial ⟨⟨0, 0⟩, ⟨4, 4⟩⟩)).1 entry0 [cmd0, cmd0] rfl rfl

/-! ## C2 — encode/decode round-trip -/

/-- C2: encoding any finite command sequence into a fresh buffer and
decoding it back yields exactly the original sequence in order. -/
theorem decode_encode_roundtrip (cmds : List BlobImageCommand) :
    (encode cmds).decode = some cmds :=
  decode_encode cmds

/-! ## C3 — append monotonicity -/

/-- C3: appending a command to a buffer holding the sequence `S` makes it
decode to `S ++ [c]`, and `new_entry` reports the previous length as the
new entry's index. -/
theorem append_monotone (b : BlobData) (S : List BlobImageCommand) (c : BlobImageCommand)
    (hwf : b.header = b.entries.length) (hdec : b.decode = some S) :
    (b.new_entry c).1.decode = some (S ++ [c]) ∧ (b.new_entry c).2 = S.length := by
  have hS : S = b.entries := by
    rw [decode_wf b hwf] at hdec
    exact (Option.some.inj hdec).symm
  subst hS
  constructor
  · exact decode_wf ⟨b.header + 1, b.entries ++ [c]⟩ (by simp [hwf])
  · exact hwf

/-- C3 witness: appending to the concrete one-command buffer. -/
theorem append_monotone_witness :
    ((⟨1, [cmd0]⟩ : BlobData).new_entry cmd0).1.decode = some ([cmd0] ++ [cmd0]) ∧
      ((⟨1, [cmd0]⟩ : BlobData).new_entry cmd0).2 = [cmd0].length :=
  append_monotone ⟨1, [cmd0]⟩ [cmd0] cmd0 rfl rfl

/-! ## C4 — missing identifier at rasterization time -/

/-- C4: the source indexes the registry map directly
(`&self.blob_commands.lock().unwrap()[&request.request.key]`), so a batch
containing a request whose key is absent panics: the whole `rasterize`
call is destroyed (`none`), instead of producing a per-request
`UnknownImageIdentifier` error and leaving sibling requests intact. -/
theorem rasterize_batch_dies_on_missing_key (reg : Registry) (mt : Bool)
    (requests : List BlobImageParams) (request : BlobImageParams)
    (hmem : request ∈ requests) (hkey : reg request.request.key = none) :
    ServoBlobRasterizer.rasterize reg mt requests = none := by
  have hb := rasterizeBlob_none_of_missing_key reg request hkey
  have hseq := seqTraverse_none_of_mem (ServoBlobRasterizer.rasterizeBlob reg)
    requests request hmem hb
  unfold ServoBlobRasterizer.rasterize
  cases mt with
  | true =>
    rw [if_pos rfl, parTraverse_eq_seqTraverse]
    exact hseq
  | false =>
    rw [if_neg Bool.false_ne_true]
    exact hseq

/-- C4 witness: a batch holding a resolvable request and one with the
absent key 1 returns nothing at all. -/
theorem rasterize_batch_dies_on_missing_key_witness :
    ServoBlobRasterizer.rasterize reg0 true [req0, reqMissing] = none :=
  rasterize_batch_dies_on_missing_key reg0 true [req0, reqMissing] reqMissing
    (by decide) rfl

/-! ## C5 — unsupported pixel format -/

/-- C5: any format other than RGBA8 hits `unimplemented!()` inside
`rasterize_blob`, so the panic destroys the whole batch (`none`) rather
than producing a per-request error result and results for the other
requests. -/
theorem rasterize_batch_dies_on_bad_format (reg : Registry) (mt : Bool)
    (requests : List BlobImageParams) (request : BlobImageParams)
    (hmem : request ∈ requests) (hfmt : request.descriptor.format ≠ .RGBA8) :
    ServoBlobRasterizer.rasterize reg mt requests = none := by
  have hb := rasterizeBlob_none_of_bad_format reg request hfmt
  have hseq := seqTraverse_none_of_mem (ServoBlobRasterizer.rasterizeBlob reg)
    requests request hmem hb
  unfold ServoBlobRasterizer.rasterize
  cases mt with
  | true =>
    rw [if_pos rfl, parTraverse_eq_seqTraverse]
    exact hseq
  | false =>
    rw [if_neg Bool.false_ne_true]
    exact hseq

/-- C5 witness: one BGRA8 request kills a batch that also holds a valid
RGBA8 request. -/
theorem rasterize_batch_dies_on_bad_format_witness :
    ServoBlobRasterizer.rasterize reg0 false [reqBadFmt, req0] = none :=
  rasterize_batch_dies_on_bad_format reg0 false [reqBadFmt, req0] reqBadFmt
    (by decide) (by decide)

/-! ## C7 — polygon with zero points -/

/-- C7: a `DrawPolygon` command with zero points drives
`PathBuilder::finish().unwrap()` into a panic (an empty builder finishes
to `None`), so the request is destroyed (`none`) instead of skipping the
degenerate command and completing. -/
theorem rasterizeBlob_dies_on_empty_polygon (reg : Registry) (request : BlobImageParams)
    (entry : BlobCommand) (cmds : List BlobImageCommand) (c : BlobImageCommand)
    (hentry : reg request.request.key = some entry)
    (hdec : entry.data.decode = some cmds)
    (hmem : c ∈ cmds) (hc : c.kind = .DrawPolygon []) :
    ServoBlobRasterizer.rasterizeBlob reg request = none :=
  rasterizeBlob_none_of_empty_polygon reg request entry cmds c hentry hdec hmem hc

/-- C7 witness: the concrete empty-polygon buffer panics the request. -/
theorem rasterizeBlob_dies_on_empty_polygon_witness :
    ServoBlobRasterizer.rasterizeBlob regPoly req0 = none :=
  rasterizeBlob_dies_on_empty_polygon regPoly req0 polyEntry [polyCmd] polyCmd
    rfl rfl (by decide) rfl

/-! ## C9 — parallel and sequential rasterization agree -/

/-- C9: against a fixed registry snapshot, the multithreaded `rasterize`
(rayon split-join map, order-preserving collect) returns exactly the same
result list as the sequential mode — in particular the same multiset of
per-request results. -/
theorem rasterize_parallel_eq_sequential (reg : Registry)
    (requests : List BlobImageParams) :
    ServoBlobRasterizer.rasterize reg true requests
      = ServoBlobRasterizer.rasterize reg false requests := by
  unfold ServoBlobRasterizer.rasterize
  rw [if_pos rfl, if_neg Bool.false_ne_true]
  exact parTraverse_eq_seqTraverse _ requests

/-! ## C8 — header count invariant -/

/-- C8: every buffer built by appends from a fresh buffer has its header
count equal to the number of appended entries and decodes to exactly those
entries; and on any buffer whose backing store holds at least `header`
entries, the decoder reads exactly the first `header` of them, never past
the declared count. -/
theorem header_counts_entries :
    (∀ b : BlobData, b.Reachable → b.header = b.entries.length ∧ b.decode = some b.entries) ∧
    (∀ b : BlobData, b.header ≤ b.entries.length →
      b.decode = some (b.entries.take b.header)) := by
  constructor
  · intro b hb
    induction hb with
    | new => exact ⟨rfl, rfl⟩
    | append b c _ ih =>
      refine ⟨by simp [BlobData.new_entry, ih.1], ?_⟩
      exact decode_wf _ (by simp [BlobData.new_entry, ih.1])
  · intro b h
    exact decode_of_le b h

/-- C8 witness: the singleton reachable buffer, and a buffer with one
trailing entry beyond the declared count. -/
theorem header_counts_entries_witness :
    ((⟨1, [cmd0]⟩ : BlobData).header = [cmd0].length ∧
      (⟨1, [cmd0]⟩ : BlobData).decode = some [cmd0]) ∧
    (⟨1, [cmd0, polyCmd]⟩ : BlobData).decode = some ([cmd0, polyCmd].take 1) :=
  ⟨header_counts_entries.1 ⟨1, [cmd0]⟩
      (show BlobData.Reachable (BlobData.new.new_entry cmd0).1 from .append _ _ .new),
    header_counts_entries.2 ⟨1, [cmd0, polyCmd]⟩ (by decide)⟩

/-! ## C10 — update's frame: tiling hint and other entries untouched -/

/-- C10: `update` on a registered id keeps the entry's `tile_size` and
rewrites only its buffer and visible rect; every other key's entry is
unchanged. -/
theorem update_frame_effect (reg : Registry) (key : Nat) (data : BlobData) (v : Box2)
    (dr : DirtyRect) (old : BlobCommand) (cmds : List BlobImageCommand)
    (hold : reg key = some old) (hdec : data.decode = some cmds) :
    ∃ reg', ServoBlobImageHandler.update reg key data v dr = some reg' ∧
      (∃ newData, reg' key = some ⟨newData, v, old.tile_size⟩) ∧
      ∀ k, k ≠ key → reg' k = reg k := by
  refine ⟨_, update_present reg key data v dr old cmds hold hdec, ?_, ?_⟩
  · refine ⟨if (dirtyBox dr).containsBox (old.visible_rect.intersectionUnchecked v)
        then encode cmds else BlobData.new, ?_⟩
    rw [if_pos rfl]
  · intro k hk
    rw [if_neg hk]

/-- C10 witness: the concrete update keeps `tile_size = 16` under key 0
and leaves key 1 absent as before. -/
theorem update_frame_effect_witness :
    ∃ reg', ServoBlobImageHandler.update reg0 0 ⟨1, [polyCmd]⟩ ⟨⟨0, 0⟩, ⟨4, 4⟩⟩ .All
        = some reg' ∧
      (∃ newData, reg' 0 = some ⟨newData, ⟨⟨0, 0⟩, ⟨4, 4⟩⟩, entry0.tile_size⟩) ∧
      ∀ k, k ≠ 0 → reg' k = reg0 k :=
  update_frame_effect reg0 0 ⟨1, [polyCmd]⟩ ⟨⟨0, 0⟩, ⟨4, 4⟩⟩ .All entry0 [polyCmd]
    rfl rfl

/-! ## C6 — the per-command bounds transform -/

/-- C6 counterexample: with no dirty sub-rectangle and target rect
`(0,0)-(10,10)`, the claim's transform leaves `cmd0`'s bounds at
`(2,2)-(5,5)` (translation by the target origin `(0,0)` is the identity),
but the code paints the command at `(0,0)-(3,3)` — the bounds are rebased
to their own minimum corner, not to the target rectangle's frame. -/
theorem command_transform_counterexample :
    (ServoBlobRasterizer.rasterizeBlob reg0 req0).map (fun r => r.2.data.ops)
      = some [PaintOp.fillRect ⟨⟨0, 0⟩, ⟨3, 3⟩⟩] ∧
    specLocalBounds (dirtyOf req0.dirty_rect) req0.descriptor.rect.min cmd0.bounds
      = ⟨⟨2, 2⟩, ⟨5, 5⟩⟩ ∧
    (⟨⟨2, 2⟩, ⟨5, 5⟩⟩ : Box2) ≠ ⟨⟨0, 0⟩, ⟨3, 3⟩⟩ :=
  ⟨rfl, rfl, by decide⟩

/-- C6 (amended): for every decoded command processed by a successful
request, the bounds are intersected with the dirty sub-rectangle when the
request carries one, and the intersected bounds are then replaced by the
rectangle of the same extents anchored at the origin — translated by the
negation of their own minimum corner, not into the frame of the request's
target rectangle origin; the painted operations are exactly these
per-command operations, in order. -/
theorem rasterizeBlob_paints_rebased_commands (reg : Registry)
    (request : BlobImageParams) (entry : BlobCommand)
    (cmds : List BlobImageCommand) (r : BlobImageRequest) (res : RasterizedBlobImage)
    (hentry : reg request.request.key = some entry)
    (hdec : entry.data.decode = some cmds)
    (h : ServoBlobRasterizer.rasterizeBlob reg request = some (r, res)) :
    res.data.ops = cmds.map (paintOpOf (dirtyOf request.dirty_rect)) := by
  unfold ServoBlobRasterizer.rasterizeBlob at h
  cases hf : request.descriptor.format with
  | RGBA8 =>
    rw [hf] at h
    dsimp only at h
    cases hpm : Pixmap.new (intAsU32 request.descriptor.rect.width)
        (intAsU32 request.descriptor.rect.height) with
    | none => rw [hpm] at h; cases h
    | some pixmap =>
      rw [hpm] at h
      dsimp only at h
      rw [hentry] at h
      dsimp only at h
      rw [hdec] at h
      dsimp only at h
      cases hpaint : paintAll (dirtyOf request.dirty_rect) pixmap cmds with
      | none => rw [hpaint] at h; cases h
      | some painted =>
        rw [hpaint] at h
        injection h with h1
        injection h1 with hr hres
        subst hres
        have hops := paintAll_ops (dirtyOf request.dirty_rect) cmds pixmap painted hpaint
        have hzero : pixmap.ops = [] := by
          unfold Pixmap.new at hpm
          split at hpm
          · cases hpm
          · injection hpm with h2
            rw [← h2]
        dsimp only
        rw [hops, hzero]
        rfl
  | BGRA8 =>
    rw [hf] at h
    exact Option.noConfusion h
  | R8 =>
    rw [hf] at h
    exact Option.noConfusion h

/-- C6 witness: the concrete request paints `cmd0` at the origin-anchored
rectangle. -/
theorem rasterizeBlob_paints_rebased_commands_witness :
    (⟨⟨⟨0, 0⟩, ⟨10, 10⟩⟩, ⟨10, 10, [PaintOp.fillRect ⟨⟨0, 0⟩, ⟨3, 3⟩⟩]⟩⟩ :
        RasterizedBlobImage).data.ops
      = [cmd0].map (paintOpOf (dirtyOf req0.dirty_rect)) :=
  rasterizeBlob_paints_rebased_commands reg0 req0 entry0 [cmd0] req0.request
    ⟨⟨⟨0, 0⟩, ⟨10, 10⟩⟩, ⟨10, 10, [PaintOp.fillRect ⟨⟨0, 0⟩, ⟨3, 3⟩⟩]⟩⟩ rfl rfl rfl
